import Mathlib

/-!
Verification of the Rotorflight mixer engine (src/main/flight/mixer.c).

The definitions below are a shallow embedding of the C source: float values
are modelled as exact rationals (for the sqrt-free parts) or reals (for the
parts that use sqrtf / sin_approx), fixed-size C arrays are modelled as
functions from array indices, and the mutable module state touched by each
C function is passed and returned explicitly.  Constants that live in
flight/mixer.h (array sizes, override range, saturation time) are not part
of the verified sources, so they are kept as explicit parameters.
-/

namespace RotorflightMixer

/-- Per-input persisted configuration `mixerInput_t`: `rate`, `min`, `max`
are `int16_t` fields in thousandths scale. -/
structure InputConfig where
  rate : ℤ
  min : ℤ
  max : ℤ
  deriving Repr, DecidableEq

/-- Ambient state and configuration read by `mixerSetInput` for one index:
the arming flag, the override slot `mixOverride[index]`, the input's
configuration, the header constants `MIXER_OVERRIDE_MIN` / `MIXER_OVERRIDE_MAX`
(kept abstract, they are defined in flight/mixer.h which is not among the
verified sources) and `MIXER_SATURATION_TIME`. -/
structure SetInputCtx where
  armed : Bool
  override : ℤ
  cfg : InputConfig
  overrideMin : ℤ
  overrideMax : ℤ
  satTime : ℕ
  deriving Repr, DecidableEq

/-- Override replacement step of `mixerSetInput` (mixer.c lines 98-102):
only while disarmed, an override value inside the valid override range
replaces the raw value by `override / 1000`. -/
def overrideValue (c : SetInputCtx) (value : ℚ) : ℚ :=
  if c.armed = false ∧ c.overrideMin ≤ c.override ∧ c.override ≤ c.overrideMax then
    (c.override : ℚ) / 1000
  else
    value

/-- Clamp-and-saturate step of `mixerSetInput` (mixer.c lines 104-119):
constrain the value into `[min/1000, max/1000]`; on either clamp the
saturation counter is set to `MIXER_SATURATION_TIME` (`mixerSaturateInput`).
Returns the stored value and the new saturation counter. -/
def inputClamp (cfg : InputConfig) (satTime : ℕ) (value : ℚ) (sat : ℕ) : ℚ × ℕ :=
  let imin : ℚ := (cfg.min : ℚ) / 1000
  let imax : ℚ := (cfg.max : ℚ) / 1000
  if value > imax then (imax, satTime)
  else if value < imin then (imin, satTime)
  else (value, sat)

/-- `mixerSetInput` (mixer.c lines 94-120): override while disarmed, then
clamp into the configured range, returning `(mixInput[index], mixSaturated[index])`. -/
def mixerSetInput (c : SetInputCtx) (value : ℚ) (sat : ℕ) : ℚ × ℕ :=
  inputClamp c.cfg c.satTime (overrideValue c value) sat

/-- `mixerSaturated` (mixer.c lines 356-359): an input is saturated while its
counter is positive. -/
def mixerSaturated (sat : ℕ) : Bool :=
  sat > 0

end RotorflightMixer

namespace RotorflightMixer

/-- C1: after `mixerSetInput`, the stored value lies within
`[min/1000, max/1000]` of that input's configuration (well-formed: `min ≤ max`),
and if the value was clamped at either bound the saturation counter equals
`MIXER_SATURATION_TIME`, so `mixerSaturated` is true immediately after. -/
theorem C1_setInput_clamped_and_saturates (c : SetInputCtx) (value : ℚ) (sat : ℕ)
    (hminmax : c.cfg.min ≤ c.cfg.max) (hst : 0 < c.satTime) :
    (c.cfg.min : ℚ) / 1000 ≤ (mixerSetInput c value sat).1 ∧
    (mixerSetInput c value sat).1 ≤ (c.cfg.max : ℚ) / 1000 ∧
    ((overrideValue c value > (c.cfg.max : ℚ) / 1000 ∨
      overrideValue c value < (c.cfg.min : ℚ) / 1000) →
      (mixerSetInput c value sat).2 = c.satTime ∧
      mixerSaturated (mixerSetInput c value sat).2 = true) := by
  have hmm : (c.cfg.min : ℚ) / 1000 ≤ (c.cfg.max : ℚ) / 1000 := by
    apply div_le_div_of_nonneg_right _ (by norm_num)
    exact_mod_cast hminmax
  unfold mixerSetInput inputClamp
  set v := overrideValue c value with hv
  by_cases h1 : v > (c.cfg.max : ℚ) / 1000
  · simp only [h1, if_pos]
    refine ⟨hmm, le_refl _, fun _ => ⟨by simp, ?_⟩⟩
    simpa [mixerSaturated] using hst
  · by_cases h2 : v < (c.cfg.min : ℚ) / 1000
    · simp only [h1, h2, if_neg, if_pos, not_false_iff]
      refine ⟨le_refl _, hmm, fun _ => ⟨by simp, ?_⟩⟩
      simpa [mixerSaturated] using hst
    · simp only [h1, h2, if_neg, not_false_iff]
      exact ⟨le_of_not_lt h2, le_of_not_lt h1, fun hc => absurd hc (by tauto)⟩

/-- Witness for C1 at a concrete input: armed, range `[-1000, 1000]`,
saturation time 5, raw value 2 gets clamped to 1 and saturates. -/
theorem C1_setInput_clamped_and_saturates_witness :
    let c : SetInputCtx :=
      { armed := true, override := 0, cfg := { rate := 1000, min := -1000, max := 1000 },
        overrideMin := -2500, overrideMax := 2500, satTime := 5 }
    (c.cfg.min : ℚ) / 1000 ≤ (mixerSetInput c 2 0).1 ∧
    (mixerSetInput c 2 0).1 ≤ (c.cfg.max : ℚ) / 1000 ∧
    ((overrideValue c 2 > (c.cfg.max : ℚ) / 1000 ∨
      overrideValue c 2 < (c.cfg.min : ℚ) / 1000) →
      (mixerSetInput c 2 0).2 = c.satTime ∧
      mixerSaturated (mixerSetInput c 2 0).2 = true) := by
  exact C1_setInput_clamped_and_saturates _ 2 0 (by norm_num) (by norm_num)

/-- C2: override handling of `mixerSetInput`.  Disarmed with an in-range
override: the raw value is ignored and the stored value is `override/1000`
post-clamp.  Disarmed with an out-of-range (sentinel) override: the raw
value is used unmodified.  Armed: the override is ignored regardless of its
value. -/
theorem C2_setInput_override_gating (c : SetInputCtx) (value value' : ℚ) (sat : ℕ) :
    (c.armed = false → c.overrideMin ≤ c.override → c.override ≤ c.overrideMax →
      mixerSetInput c value sat = mixerSetInput c value' sat ∧
      mixerSetInput c value sat = inputClamp c.cfg c.satTime ((c.override : ℚ) / 1000) sat) ∧
    (c.armed = false → ¬(c.overrideMin ≤ c.override ∧ c.override ≤ c.overrideMax) →
      mixerSetInput c value sat = inputClamp c.cfg c.satTime value sat) ∧
    (c.armed = true →
      mixerSetInput c value sat = inputClamp c.cfg c.satTime value sat) := by
  refine ⟨fun hd h1 h2 => ?_, fun hd hout => ?_, fun ha => ?_⟩
  · have hov : ∀ w : ℚ, overrideValue c w = (c.override : ℚ) / 1000 := fun w => by
      unfold overrideValue
      rw [if_pos ⟨hd, h1, h2⟩]
    unfold mixerSetInput
    rw [hov value, hov value']
    exact ⟨rfl, rfl⟩
  · unfold mixerSetInput overrideValue
    rw [if_neg (by tauto)]
  · unfold mixerSetInput overrideValue
    rw [if_neg (by simp [ha])]

/-- Witness for C2 at a concrete input: disarmed, override 500 within
`[-2500, 2500]`, so raw values 2 and -3 give the same result, namely the
clamp of `500/1000`. -/
theorem C2_setInput_override_gating_witness :
    let c : SetInputCtx :=
      { armed := false, override := 500, cfg := { rate := 1000, min := -1000, max := 1000 },
        overrideMin := -2500, overrideMax := 2500, satTime := 5 }
    mixerSetInput c 2 0 = mixerSetInput c (-3) 0 ∧
    mixerSetInput c 2 0 = inputClamp c.cfg c.satTime ((500 : ℚ) / 1000) 0 := by
  exact (C2_setInput_override_gating _ 2 (-3) 0).1 rfl (by norm_num) (by norm_num)

end RotorflightMixer

namespace RotorflightMixer

/-- BIT(x) macro: `1 << x`.  Input indices in the firmware are clamped below
`MIXER_INPUT_COUNT ≤ 32` at load time, so the 32-bit width of
`mixOutputMap` entries is never exceeded. -/
def BIT (x : ℕ) : ℕ :=
  1 <<< x

/-- Internal mixer rule `mixerRule_t`: flight-mode gate mask, operator,
source input index, destination output index, offset and weight. -/
structure Rule where
  mode : ℕ
  oper : ℕ
  input : ℕ
  output : ℕ
  offset : ℤ
  weight : ℤ
  deriving Repr, DecidableEq

/-- Modelled from the spec: the operator enumeration of flight/mixer.h
(not among the verified sources): operator NONE is 0, then SET, ADD, MUL. -/
def MIXER_OP_SET : ℕ := 1

/-- Modelled from the spec: ADD operator code. -/
def MIXER_OP_ADD : ℕ := 2

/-- Modelled from the spec: MUL operator code. -/
def MIXER_OP_MUL : ℕ := 3

/-- Modelled from the spec: number of operator codes. -/
def MIXER_OP_COUNT : ℕ := 4

/-- Flight mode mask (mixer.c line 283):
`((uint32_t)(~flightModeFlags)) << 16 | flightModeFlags`.
`flightModeFlags` is a 16-bit value; `~` promotes it to `int` and the cast
to `uint32_t` yields `2^32 - 1 - flags`, then the shift truncates to 32 bits. -/
def flightModeMask (flags : ℕ) : ℕ :=
  (((2 ^ 32 - 1 - flags) <<< 16) % 2 ^ 32) ||| flags

/-- Gate of the rule loop (mixer.c line 287):
`rules[i].oper && ((rules[i].mode == 0) || (rules[i].mode & flightModeMask))`. -/
def ruleFires (flags : ℕ) (r : Rule) : Prop :=
  r.oper ≠ 0 ∧ (r.mode = 0 ∨ r.mode &&& flightModeMask flags ≠ 0)

instance (flags : ℕ) (r : Rule) : Decidable (ruleFires flags r) := by
  unfold ruleFires
  infer_instance

/-- Value contributed by one rule (mixer.c lines 290-291):
`val = mixInput[src] * rate[src] / 1000`, `out = (offset + weight * val) / 1000`. -/
def ruleOutput (inVal : ℕ → ℚ) (inRate : ℕ → ℤ) (r : Rule) : ℚ :=
  ((r.offset : ℚ) + (r.weight : ℚ) * (inVal r.input * (inRate r.input : ℚ) / 1000)) / 1000

/-- The per-tick output state: `mixOutput` and the contributor bitmaps
`mixOutputMap`. -/
structure OutputState where
  out : ℕ → ℚ
  map : ℕ → ℕ

/-- Body of the rule loop for one rule (mixer.c lines 286-309): if the rule
fires, dispatch on the operator; SET overwrites value and contributor map,
ADD and MUL accumulate the value and union the contributor bit. -/
def mixerApplyRule (flags : ℕ) (inVal : ℕ → ℚ) (inRate : ℕ → ℤ)
    (st : OutputState) (r : Rule) : OutputState :=
  if ruleFires flags r then
    let src := r.input
    let dst := r.output
    let out := ruleOutput inVal inRate r
    if r.oper = MIXER_OP_SET then
      { out := Function.update st.out dst out,
        map := Function.update st.map dst (BIT src) }
    else if r.oper = MIXER_OP_ADD then
      { out := Function.update st.out dst (st.out dst + out),
        map := Function.update st.map dst (st.map dst ||| BIT src) }
    else if r.oper = MIXER_OP_MUL then
      { out := Function.update st.out dst (st.out dst * out),
        map := Function.update st.map dst (st.map dst ||| BIT src) }
    else
      st
  else
    st

/-- Rule evaluation of `mixerUpdate` (mixer.c lines 276-309): outputs and
contributor maps are reset to zero, then the rule table is folded in order. -/
def mixerUpdateOutputs (flags : ℕ) (inVal : ℕ → ℚ) (inRate : ℕ → ℤ)
    (ruleList : List Rule) : OutputState :=
  ruleList.foldl (mixerApplyRule flags inVal inRate) { out := fun _ => 0, map := fun _ => 0 }

/-- Bit-level characterization of `flightModeMask`: lower half carries the
flags, upper half their 16-bit complement, nothing above bit 31. -/
theorem flightModeMask_testBit (flags : ℕ) (hf : flags < 2 ^ 16) (i : ℕ) :
    (flightModeMask flags).testBit i =
      if i < 16 then flags.testBit i
      else (decide (i < 32) && !flags.testBit (i - 16)) := by
  have hf32 : flags < 2 ^ 32 := lt_of_lt_of_le hf (by norm_num)
  have hsub : 2 ^ 32 - 1 - flags = 2 ^ 32 - (flags + 1) := by omega
  unfold flightModeMask
  rw [Nat.testBit_or, Nat.testBit_mod_two_pow, Nat.testBit_shiftLeft, hsub]
  by_cases h16 : i < 16
  · have h1 : decide (i ≥ 16) = false := by simp; omega
    have h2 : flags.testBit i = flags.testBit i := rfl
    simp only [h1, Bool.false_and, Bool.and_false, Bool.false_or, if_pos h16]
  · have h1 : decide (i ≥ 16) = true := by simp; omega
    rw [Nat.testBit_two_pow_sub_succ hf32]
    have h3 : flags.testBit i = false :=
      Nat.testBit_lt_two_pow (lt_of_lt_of_le hf (Nat.pow_le_pow_right (by norm_num) (by omega)))
    by_cases h32 : i < 32
    · simp only [if_neg h16, h3, h1, decide_eq_true_eq]
      simp only [decide_eq_true h32, Bool.true_and, Bool.and_true, Bool.or_false]
      have : decide (i - 16 < 32) = true := by simp; omega
      simp [this, h32]
    · simp only [if_neg h16, h3, Bool.or_false]
      have : decide (i < 32) = false := by simp; omega
      simp [this]

end RotorflightMixer

namespace RotorflightMixer

/-- C3: during rule evaluation the flight-mode mask has the active mode
flags in its lower 16 bits and their bitwise complement in the upper 16
bits (stated both bitwise and arithmetically); a rule with gate mask 0
always fires (provided its operator is not NONE), and a rule with a
nonzero gate fires iff `gate & flightModeMask != 0`. -/
theorem C3_flightModeMask_and_gate (flags : ℕ) (hf : flags < 2 ^ 16) :
    (∀ b, b < 16 → (flightModeMask flags).testBit b = flags.testBit b) ∧
    (∀ b, b < 16 → (flightModeMask flags).testBit (16 + b) = !flags.testBit b) ∧
    flightModeMask flags % 2 ^ 16 = flags ∧
    flightModeMask flags / 2 ^ 16 = 2 ^ 16 - 1 - flags ∧
    (∀ r : Rule, r.oper ≠ 0 → r.mode = 0 → ruleFires flags r) ∧
    (∀ r : Rule, r.oper ≠ 0 → r.mode ≠ 0 →
      (ruleFires flags r ↔ r.mode &&& flightModeMask flags ≠ 0)) := by
  have hbit := flightModeMask_testBit flags hf
  refine ⟨fun b hb => ?_, fun b hb => ?_, ?_, ?_, fun r ho hm => ⟨ho, Or.inl hm⟩,
    fun r ho hm => ⟨fun h => h.2.resolve_left hm, fun h => ⟨ho, Or.inr h⟩⟩⟩
  · rw [hbit b, if_pos hb]
  · rw [hbit (16 + b), if_neg (by omega)]
    have h32 : decide (16 + b < 32) = true := by simp; omega
    simp [h32]
  · apply Nat.eq_of_testBit_eq
    intro i
    rw [Nat.testBit_mod_two_pow]
    by_cases h16 : i < 16
    · simp only [decide_eq_true h16, Bool.true_and]
      rw [hbit i, if_pos h16]
    · have hfi : flags.testBit i = false :=
        Nat.testBit_lt_two_pow (lt_of_lt_of_le hf (Nat.pow_le_pow_right (by norm_num) (by omega)))
      have : decide (i < 16) = false := by simp; omega
      simp [this, hfi]
  · apply Nat.eq_of_testBit_eq
    intro i
    have hdiv : flightModeMask flags / 2 ^ 16 = flightModeMask flags >>> 16 := by
      rw [Nat.shiftRight_eq_div_pow]
    rw [hdiv, Nat.testBit_shiftRight, hbit (16 + i), if_neg (by omega)]
    have hc : 2 ^ 16 - 1 - flags = 2 ^ 16 - (flags + 1) := by omega
    rw [hc, Nat.testBit_two_pow_sub_succ hf]
    by_cases h16 : i < 16
    · have h32 : decide (16 + i < 32) = true := by simp; omega
      have h16d : decide (i < 16) = true := by simp [h16]
      simp only [h32, h16d, Bool.true_and, Nat.add_sub_cancel_left]
    · have h32 : decide (16 + i < 32) = false := by simp; omega
      have h16d : decide (i < 16) = false := by simp; omega
      simp [h32, h16d]

/-- Witness for C3 at `flags = 5`: active bit 0 appears in the lower half
and inactive bit 1 is reported by the upper half. -/
theorem C3_flightModeMask_and_gate_witness :
    (5 : ℕ) < 2 ^ 16 ∧
    (flightModeMask 5).testBit 0 = Nat.testBit 5 0 ∧
    (flightModeMask 5).testBit (16 + 1) = !Nat.testBit 5 1 := by
  refine ⟨by norm_num, ?_, ?_⟩
  · exact (C3_flightModeMask_and_gate 5 (by norm_num)).1 0 (by norm_num)
  · exact (C3_flightModeMask_and_gate 5 (by norm_num)).2.1 1 (by norm_num)

end RotorflightMixer

namespace RotorflightMixer

/-- C4: operator semantics of the rule loop and order dependence.  A firing
SET rule overwrites the destination with `ruleOutput` and resets the
contributor map to the source bit; a firing ADD rule accumulates and unions;
a firing MUL rule multiplies and unions.  For a SET rule followed in table
order by an ADD rule at the same destination the final value is
`setValue + addValue`, while the swapped order leaves only the SET value, a
different result whenever the ADD contribution is nonzero. -/
theorem C4_rule_order_and_operators (flags : ℕ) (inVal : ℕ → ℚ) (inRate : ℕ → ℤ)
    (st : OutputState) (r1 r2 r3 : Rule)
    (h1 : ruleFires flags r1) (hop1 : r1.oper = MIXER_OP_SET)
    (h2 : ruleFires flags r2) (hop2 : r2.oper = MIXER_OP_ADD)
    (hop3 : r3.oper = MIXER_OP_MUL) (h3 : ruleFires flags r3)
    (hdst : r2.output = r1.output) :
    (mixerApplyRule flags inVal inRate st r1).out r1.output = ruleOutput inVal inRate r1 ∧
    (mixerApplyRule flags inVal inRate st r1).map r1.output = BIT r1.input ∧
    (mixerApplyRule flags inVal inRate st r2).out r2.output
      = st.out r2.output + ruleOutput inVal inRate r2 ∧
    (mixerApplyRule flags inVal inRate st r2).map r2.output
      = st.map r2.output ||| BIT r2.input ∧
    (mixerApplyRule flags inVal inRate st r3).out r3.output
      = st.out r3.output * ruleOutput inVal inRate r3 ∧
    (mixerApplyRule flags inVal inRate st r3).map r3.output
      = st.map r3.output ||| BIT r3.input ∧
    (mixerUpdateOutputs flags inVal inRate [r1, r2]).out r1.output
      = ruleOutput inVal inRate r1 + ruleOutput inVal inRate r2 ∧
    (mixerUpdateOutputs flags inVal inRate [r2, r1]).out r1.output
      = ruleOutput inVal inRate r1 ∧
    (ruleOutput inVal inRate r2 ≠ 0 →
      (mixerUpdateOutputs flags inVal inRate [r2, r1]).out r1.output ≠
      (mixerUpdateOutputs flags inVal inRate [r1, r2]).out r1.output) := by
  have hset : ∀ st' : OutputState, mixerApplyRule flags inVal inRate st' r1 =
      { out := Function.update st'.out r1.output (ruleOutput inVal inRate r1),
        map := Function.update st'.map r1.output (BIT r1.input) } := by
    intro st'
    unfold mixerApplyRule
    rw [if_pos h1, if_pos hop1]
  have hadd : ∀ st' : OutputState, mixerApplyRule flags inVal inRate st' r2 =
      { out := Function.update st'.out r2.output
          (st'.out r2.output + ruleOutput inVal inRate r2),
        map := Function.update st'.map r2.output (st'.map r2.output ||| BIT r2.input) } := by
    intro st'
    unfold mixerApplyRule
    rw [if_pos h2, if_neg (by rw [hop2]; decide), if_pos hop2]
  have hmul : mixerApplyRule flags inVal inRate st r3 =
      { out := Function.update st.out r3.output
          (st.out r3.output * ruleOutput inVal inRate r3),
        map := Function.update st.map r3.output (st.map r3.output ||| BIT r3.input) } := by
    unfold mixerApplyRule
    rw [if_pos h3, if_neg (by rw [hop3]; decide), if_neg (by rw [hop3]; decide), if_pos hop3]
  have hfold12 : mixerUpdateOutputs flags inVal inRate [r1, r2] =
      mixerApplyRule flags inVal inRate
        (mixerApplyRule flags inVal inRate { out := fun _ => 0, map := fun _ => 0 } r1) r2 := rfl
  have hfold21 : mixerUpdateOutputs flags inVal inRate [r2, r1] =
      mixerApplyRule flags inVal inRate
        (mixerApplyRule flags inVal inRate { out := fun _ => 0, map := fun _ => 0 } r2) r1 := rfl
  have e12 : (mixerUpdateOutputs flags inVal inRate [r1, r2]).out r1.output
      = ruleOutput inVal inRate r1 + ruleOutput inVal inRate r2 := by
    rw [hfold12, hadd, hset, hdst]
    simp
  have e21 : (mixerUpdateOutputs flags inVal inRate [r2, r1]).out r1.output
      = ruleOutput inVal inRate r1 := by
    rw [hfold21, hset]
    simp
  refine ⟨?_, ?_, ?_, ?_, ?_, ?_, e12, e21, fun hnz => ?_⟩
  · rw [hset st]; simp [Function.update_same]
  · rw [hset st]; simp [Function.update_same]
  · rw [hadd st]; simp [Function.update_same]
  · rw [hadd st]; simp [Function.update_same]
  · rw [hmul]; simp [Function.update_same]
  · rw [hmul]; simp [Function.update_same]
  · rw [e12, e21]
    intro hcontra
    exact hnz (by linarith)

/-- Witness for C4 at concrete rules: SET(input 1, weight 1000) then
ADD(input 2, offset 100, weight 500) on output 3, with input 1 at 1/2 and
input 2 at 1/4, rates 1000. -/
theorem C4_rule_order_and_operators_witness :
    let inVal : ℕ → ℚ := fun i => if i = 1 then 1/2 else 1/4
    let inRate : ℕ → ℤ := fun _ => 1000
    let r1 : Rule := { mode := 0, oper := 1, input := 1, output := 3, offset := 0, weight := 1000 }
    let r2 : Rule := { mode := 0, oper := 2, input := 2, output := 3, offset := 100, weight := 500 }
    (mixerUpdateOutputs 0 inVal inRate [r1, r2]).out 3
      = ruleOutput inVal inRate r1 + ruleOutput inVal inRate r2 ∧
    (mixerUpdateOutputs 0 inVal inRate [r2, r1]).out 3 = ruleOutput inVal inRate r1 ∧
    (mixerUpdateOutputs 0 inVal inRate [r2, r1]).out 3 ≠
      (mixerUpdateOutputs 0 inVal inRate [r1, r2]).out 3 := by
  intro inVal inRate r1 r2
  have h := C4_rule_order_and_operators 0 inVal inRate
    { out := fun _ => 0, map := fun _ => 0 } r1 r2
    { mode := 0, oper := 3, input := 1, output := 3, offset := 0, weight := 1000 }
    (by constructor <;> simp [r1]) rfl
    (by constructor <;> simp [r2]) rfl
    rfl (by constructor <;> simp)
    rfl
  refine ⟨h.2.2.2.2.2.2.1, h.2.2.2.2.2.2.2.1, h.2.2.2.2.2.2.2.2 ?_⟩
  unfold ruleOutput
  norm_num [r2, inVal, inRate]

end RotorflightMixer

namespace RotorflightMixer

/-- `mixerSaturateOutput` (mixer.c lines 366-373): for every input index
`i` with `1 <= i < MIXER_INPUT_COUNT` whose bit is set in the output's
contributor bitmap, call `mixerSaturateInput(i)`, i.e. set that input's
saturation counter to `MIXER_SATURATION_TIME`. -/
def mixerSaturateOutput (inputCount satTime : ℕ) (outMap : ℕ → ℕ) (index : ℕ)
    (sat : ℕ → ℕ) : ℕ → ℕ :=
  (List.range' 1 (inputCount - 1)).foldl
    (fun s i => if outMap index &&& BIT i ≠ 0 then Function.update s i satTime else s) sat

/-- Testing one bit with the BIT macro agrees with `Nat.testBit`. -/
theorem and_BIT_ne_zero (m i : ℕ) : (m &&& BIT i ≠ 0) ↔ m.testBit i = true := by
  unfold BIT
  rw [Nat.shiftLeft_eq, one_mul]
  constructor
  · intro h
    by_contra hb
    apply h
    apply Nat.eq_of_testBit_eq
    intro j
    rw [Nat.testBit_and, Nat.zero_testBit, Nat.testBit_two_pow]
    by_cases hij : i = j
    · subst hij
      simp only [decide_eq_true rfl, Bool.and_true]
      simpa using hb
    · simp [hij]
  · intro h h0
    have ht : (m &&& 2 ^ i).testBit i = false := by rw [h0]; exact Nat.zero_testBit i
    rw [Nat.testBit_and, Nat.testBit_two_pow, decide_eq_true rfl, Bool.and_true, h] at ht
    exact Bool.noConfusion ht

/-- Pointwise effect of the `mixerSaturateOutput` fold over any index list. -/
theorem saturateOutput_foldl (m satTime : ℕ) (L : List ℕ) (sat : ℕ → ℕ) (j : ℕ) :
    (L.foldl (fun s i => if m &&& BIT i ≠ 0 then Function.update s i satTime else s) sat) j
      = if j ∈ L ∧ m.testBit j then satTime else sat j := by
  induction L generalizing sat with
  | nil => simp
  | cons a L ih =>
    rw [List.foldl_cons, ih]
    by_cases hL : j ∈ L ∧ m.testBit j
    · rw [if_pos hL, if_pos ⟨List.mem_cons_of_mem a hL.1, hL.2⟩]
    · rw [if_neg hL]
      by_cases hja : j = a
      · subst hja
        by_cases hbit : m.testBit j
        · rw [if_pos ((and_BIT_ne_zero m j).mpr hbit), Function.update_same,
            if_pos ⟨List.mem_cons_self j L, hbit⟩]
        · have hcond : ¬(m &&& BIT j ≠ 0) := fun hc => hbit ((and_BIT_ne_zero m j).mp hc)
          rw [if_neg hcond, if_neg (by tauto)]
      · have hmem : ¬(j ∈ a :: L ∧ m.testBit j) := by
          intro hc
          rcases List.mem_cons.mp hc.1 with h | h
          · exact hja h
          · exact hL ⟨h, hc.2⟩
        rw [if_neg hmem]
        by_cases hcond : m &&& BIT a ≠ 0
        · rw [if_pos hcond, Function.update_noteq hja]
        · rw [if_neg hcond]

/-- C9 (amended): `mixerSaturateOutput` sets the saturation counter to the
maximum duration exactly for the input indices `i` with
`1 <= i < MIXER_INPUT_COUNT` whose bit is set in the output's contributor
bitmap, and leaves every other counter unchanged; index 0 is skipped by the
loop even when its bit is set. -/
theorem C9_saturateOutput_exact (inputCount satTime : ℕ) (outMap : ℕ → ℕ)
    (index : ℕ) (sat : ℕ → ℕ) (i : ℕ) :
    mixerSaturateOutput inputCount satTime outMap index sat i =
      if (1 ≤ i ∧ i < inputCount) ∧ (outMap index).testBit i then satTime else sat i := by
  unfold mixerSaturateOutput
  rw [saturateOutput_foldl]
  have hm : (i ∈ List.range' 1 (inputCount - 1)) ↔ (1 ≤ i ∧ i < inputCount) := by
    rw [List.mem_range']
    constructor
    · rintro ⟨k, hk, rfl⟩
      omega
    · rintro ⟨h1, h2⟩
      exact ⟨i - 1, by omega, by omega⟩
  simp only [hm]

/-- Counterexample for C9 as stated: with contributor bitmap 1 (bit 0 set,
recording input index 0 as a contributor), `mixerSaturateOutput` leaves
input 0's saturation counter at 0 instead of setting it to the maximum
duration 7, because the loop starts at index 1. -/
theorem C9_saturateOutput_counterexample :
    Nat.testBit ((fun _ : ℕ => 1) 0) 0 = true ∧
    mixerSaturateOutput 4 7 (fun _ => 1) 0 (fun _ => 0) 0 = 0 ∧
    (0 : ℕ) ≠ 7 := by
  refine ⟨by decide, ?_, by decide⟩
  decide

end RotorflightMixer

namespace RotorflightMixer

/-- Bounds used by the rule-loading `constrain` calls of `mixerInit`; the
values come from flight/mixer.h, which is not among the verified sources,
so they are kept abstract. -/
structure RuleLoadBounds where
  inputCount : ℕ
  outputCount : ℕ
  inputMin : ℤ
  inputMax : ℤ
  weightMin : ℤ
  weightMax : ℤ
  deriving Repr, DecidableEq

/-- C `constrain` macro on signed values. -/
def constrain (amt low high : ℤ) : ℤ :=
  if amt < low then low else if amt > high then high else amt

/-- C `constrain` macro applied to unsigned index fields. -/
def constrainN (amt low high : ℕ) : ℕ :=
  if amt < low then low else if amt > high then high else amt

/-- Body of the rule-loading loop of `mixerInit` (mixer.c lines 332-344)
for one slot: a persisted rule with a nonzero operator is copied with its
fields constrained; a persisted rule with operator NONE leaves the internal
slot untouched. -/
def loadRule (b : RuleLoadBounds) (persisted current : Rule) : Rule :=
  if persisted.oper ≠ 0 then
    { mode := persisted.mode
      oper := constrainN persisted.oper 0 (MIXER_OP_COUNT - 1)
      input := constrainN persisted.input 0 (b.inputCount - 1)
      output := constrainN persisted.output 0 (b.outputCount - 1)
      offset := constrain persisted.offset b.inputMin b.inputMax
      weight := constrain persisted.weight b.weightMin b.weightMax }
  else
    current

/-- Rule-loading loop of `mixerInit` over the whole table. -/
def mixerInitRules (b : RuleLoadBounds) (ruleCount : ℕ)
    (persisted rules : ℕ → Rule) : ℕ → Rule :=
  (List.range ruleCount).foldl
    (fun rs i => Function.update rs i (loadRule b (persisted i) (rs i))) rules

/-- Each internal slot after `mixerInit` rule loading. -/
theorem mixerInitRules_eq (b : RuleLoadBounds) (ruleCount : ℕ)
    (persisted rules : ℕ → Rule) (i : ℕ) :
    mixerInitRules b ruleCount persisted rules i =
      if i < ruleCount then loadRule b (persisted i) (rules i) else rules i := by
  induction ruleCount generalizing rules with
  | zero => simp [mixerInitRules]
  | succ n ih =>
    unfold mixerInitRules
    rw [List.range_succ, List.foldl_append, List.foldl_cons, List.foldl_nil]
    show Function.update (mixerInitRules b n persisted rules) n
        (loadRule b (persisted n) (mixerInitRules b n persisted rules n)) i = _
    by_cases hin : i = n
    · subst hin
      rw [Function.update_same, ih, if_neg (lt_irrefl i), if_pos (Nat.lt_succ_self i)]
    · rw [Function.update_noteq hin, ih]
      by_cases hlt : i < n
      · rw [if_pos hlt, if_pos (Nat.lt_succ_of_lt hlt)]
      · rw [if_neg hlt, if_neg (by omega)]

/-- C10: a persisted rule slot whose operator is NONE is skipped by the
rule-loading loop of `mixerInit`, so the internal slot keeps all of its
prior contents; in particular a previously active internal rule stays
active with its old mode, operator, indices, offset and weight after a
re-initialization that changed the persisted operator to NONE. -/
theorem C10_init_skips_none_rules (b : RuleLoadBounds) (ruleCount : ℕ)
    (persisted rules : ℕ → Rule) (i : ℕ) (h0 : (persisted i).oper = 0) :
    mixerInitRules b ruleCount persisted rules i = rules i ∧
    ((rules i).oper ≠ 0 → (mixerInitRules b ruleCount persisted rules i).oper ≠ 0) := by
  have hload : loadRule b (persisted i) (rules i) = rules i := by
    unfold loadRule
    rw [if_neg (by simp [h0])]
  have heq : mixerInitRules b ruleCount persisted rules i = rules i := by
    rw [mixerInitRules_eq]
    by_cases hlt : i < ruleCount
    · rw [if_pos hlt, hload]
    · rw [if_neg hlt]
  exact ⟨heq, fun ha => heq ▸ ha⟩

/-- Witness for C10: slot 0 persisted with operator NONE while the internal
slot holds an active SET rule; after re-initialization the internal slot is
unchanged and still active. -/
theorem C10_init_skips_none_rules_witness :
    let b : RuleLoadBounds := { inputCount := 8, outputCount := 8, inputMin := -2000,
                                inputMax := 2000, weightMin := -10000, weightMax := 10000 }
    let persisted : ℕ → Rule :=
      fun _ => { mode := 0, oper := 0, input := 0, output := 0, offset := 0, weight := 0 }
    let rules : ℕ → Rule :=
      fun _ => { mode := 0, oper := 1, input := 2, output := 3, offset := 40, weight := 500 }
    mixerInitRules b 2 persisted rules 0 = rules 0 ∧
    ((rules 0).oper ≠ 0 → (mixerInitRules b 2 persisted rules 0).oper ≠ 0) := by
  exact C10_init_skips_none_rules _ 2 _ _ 0 rfl

end RotorflightMixer

namespace RotorflightMixer

/-- C `sq` macro on floats, modelled over the reals. -/
noncomputable def sqf (x : ℝ) : ℝ :=
  x * x

/-- State and configuration read by `mixerCyclicLimit`: the precomputed
phase sine/cosine, the precomputed `cyclicLimit` factor, the cyclic input
configuration limits and `MIXER_SATURATION_TIME`. -/
structure CyclicCtx where
  phaseSin : ℝ
  phaseCos : ℝ
  cyclicLimit : ℝ
  rollMin : ℤ
  rollMax : ℤ
  pitchMin : ℤ
  pitchMax : ℤ
  satTime : ℕ

/-- Swash phasing step of `mixerCyclicLimit` (mixer.c lines 124-132),
returning the new (roll, pitch) pair: applied only when `phaseSin != 0`. -/
noncomputable def cyclicPhase (phaseSin phaseCos : ℝ) (SR SP : ℝ) : ℝ × ℝ :=
  if phaseSin ≠ 0 then
    (SP * phaseSin + SR * phaseCos, SP * phaseCos - SR * phaseSin)
  else
    (SR, SP)

/-- Maximum magnitude of the roll axis in the current direction
(mixer.c line 144): `ABS((SR < 0) ? min : max) / 1000`. -/
noncomputable def cyclicMaxR (c : CyclicCtx) (SR : ℝ) : ℝ :=
  (|if SR < 0 then c.rollMin else c.rollMax| : ℤ) / 1000

/-- Maximum magnitude of the pitch axis in the current direction
(mixer.c line 145). -/
noncomputable def cyclicMaxP (c : CyclicCtx) (SP : ℝ) : ℝ :=
  (|if SP < 0 then c.pitchMin else c.pitchMax| : ℤ) / 1000

/-- Stretched cyclic deflection (mixer.c lines 147-152): both axes are
normalized by their direction-dependent limit times `cyclicLimit`, then the
Euclidean magnitude of the normalized pair is taken. -/
noncomputable def cyclicNorm (c : CyclicCtx) (SR SP : ℝ) : ℝ :=
  Real.sqrt (sqf (SR / (max (cyclicMaxR c SR) 0.001 * c.cyclicLimit)) +
             sqf (SP / (max (cyclicMaxP c SP) 0.001 * c.cyclicLimit)))

/-- Swash-ring step of `mixerCyclicLimit` (mixer.c lines 134-163): when the
ring is enabled and the stretched deflection exceeds 1, both axes are scaled
back by the deflection and both inputs are saturated.  Returns
(roll, pitch, roll saturation counter, pitch saturation counter). -/
noncomputable def cyclicRing (c : CyclicCtx) (SR SP : ℝ) (satR satP : ℕ) :
    ℝ × ℝ × ℕ × ℕ :=
  if c.cyclicLimit > 0 then
    let cyclic := cyclicNorm c SR SP
    if cyclic > 1 then (SR / cyclic, SP / cyclic, c.satTime, c.satTime)
    else (SR, SP, satR, satP)
  else
    (SR, SP, satR, satP)

/-- Result of `mixerCyclicLimit`: the stored roll/pitch inputs, their
saturation counters and the recorded total cyclic deflection. -/
structure CyclicResult where
  roll : ℝ
  pitch : ℝ
  satRoll : ℕ
  satPitch : ℕ
  cyclicTotal : ℝ

/-- `mixerCyclicLimit` (mixer.c lines 122-168): phase rotation, then ring
limiting, then `cyclicTotal` is recorded as the Euclidean magnitude of the
final roll/pitch pair. -/
noncomputable def mixerCyclicLimit (c : CyclicCtx) (SR SP : ℝ) (satR satP : ℕ) :
    CyclicResult :=
  let p := cyclicPhase c.phaseSin c.phaseCos SR SP
  let r := cyclicRing c p.1 p.2 satR satP
  { roll := r.1, pitch := r.2.1, satRoll := r.2.2.1, satPitch := r.2.2.2,
    cyclicTotal := Real.sqrt (sqf r.1 + sqf r.2.1) }

/-- C5: with ring limiting enabled and the stretched (post-phase) magnitude
above 1, both stored axes are divided by that magnitude and both inputs are
saturated; `cyclicTotal` is the Euclidean magnitude of the final pair,
taken after phase rotation and after ring limiting. -/
theorem C5_ring_limit_and_total (c : CyclicCtx) (SR SP : ℝ) (satR satP : ℕ)
    (hL : c.cyclicLimit > 0)
    (hmag : cyclicNorm c (cyclicPhase c.phaseSin c.phaseCos SR SP).1
            (cyclicPhase c.phaseSin c.phaseCos SR SP).2 > 1)
    (hst : 0 < c.satTime) :
    let p := cyclicPhase c.phaseSin c.phaseCos SR SP
    let res := mixerCyclicLimit c SR SP satR satP
    res.roll = p.1 / cyclicNorm c p.1 p.2 ∧
    res.pitch = p.2 / cyclicNorm c p.1 p.2 ∧
    res.satRoll = c.satTime ∧
    res.satPitch = c.satTime ∧
    mixerSaturated res.satRoll = true ∧
    mixerSaturated res.satPitch = true ∧
    res.cyclicTotal = Real.sqrt (sqf res.roll + sqf res.pitch) := by
  intro p res
  have hres : res = { roll := p.1 / cyclicNorm c p.1 p.2,
                      pitch := p.2 / cyclicNorm c p.1 p.2,
                      satRoll := c.satTime, satPitch := c.satTime,
                      cyclicTotal := Real.sqrt (sqf (p.1 / cyclicNorm c p.1 p.2) +
                                                sqf (p.2 / cyclicNorm c p.1 p.2)) } := by
    show mixerCyclicLimit c SR SP satR satP = _
    unfold mixerCyclicLimit cyclicRing
    simp only [if_pos hL, if_pos hmag]
  rw [hres]
  refine ⟨rfl, rfl, rfl, rfl, ?_, ?_, rfl⟩ <;> simpa [mixerSaturated] using hst

/-- Witness for C5: no phase rotation, unit limits, ring factor 1 and the
pair (3, 4), whose stretched magnitude is 5. -/
theorem C5_ring_limit_and_total_witness :
    let c : CyclicCtx := { phaseSin := 0, phaseCos := 1, cyclicLimit := 1,
                           rollMin := -1000, rollMax := 1000,
                           pitchMin := -1000, pitchMax := 1000, satTime := 5 }
    let p := cyclicPhase c.phaseSin c.phaseCos 3 4
    let res := mixerCyclicLimit c 3 4 0 0
    res.roll = p.1 / cyclicNorm c p.1 p.2 ∧
    res.pitch = p.2 / cyclicNorm c p.1 p.2 ∧
    res.satRoll = c.satTime ∧
    res.satPitch = c.satTime ∧
    mixerSaturated res.satRoll = true ∧
    mixerSaturated res.satPitch = true ∧
    res.cyclicTotal = Real.sqrt (sqf res.roll + sqf res.pitch) := by
  intro c p res
  apply C5_ring_limit_and_total c 3 4 0 0 (by norm_num) ?_ (by norm_num)
  have hp : cyclicPhase c.phaseSin c.phaseCos 3 4 = (3, 4) := by
    unfold cyclicPhase
    norm_num [c]
  rw [hp]
  have h25 : cyclicNorm c 3 4 = Real.sqrt 25 := by
    unfold cyclicNorm cyclicMaxR cyclicMaxP sqf
    norm_num [c]
  rw [h25, show (25 : ℝ) = 5 ^ 2 by norm_num, Real.sqrt_sq (by norm_num)]
  norm_num

end RotorflightMixer

namespace RotorflightMixer

/-- Modelled from the spec: `mixerInitSwash` phase precomputation
(mixer.c lines 312-322).  The firmware calls `sin_approx` / `cos_approx`
from common/maths, which is not among the verified sources; following the
spec they are modelled as the exact real sine and cosine of the configured
decidegree angle converted to radians (`DECIDEGREES_TO_RADIANS`:
angle times pi over 1800).  Returns `(phaseSin, phaseCos)`. -/
noncomputable def mixerInitSwashPhase (swashPhase : ℤ) : ℝ × ℝ :=
  if swashPhase ≠ 0 then
    (Real.sin ((swashPhase : ℝ) * Real.pi / 1800),
     Real.cos ((swashPhase : ℝ) * Real.pi / 1800))
  else
    (0, 1)

/-- C6 (amended): for configured phase angles strictly between -1800 and
1800 decidegrees, the phase rotation of `mixerCyclicLimit` is applied iff
the angle is nonzero — the precomputed sine gating the rotation is nonzero
exactly then — with the code's rotation formulas, and the transform is the
identity when the angle is zero.  (At exactly 1800 decidegrees the sine is
zero and the rotation is skipped although the angle is nonzero.) -/
theorem C6_phase_rotation_gate (p : ℤ) (hlo : -1800 < p) (hhi : p < 1800) (SR SP : ℝ) :
    (p ≠ 0 →
      (mixerInitSwashPhase p).1 ≠ 0 ∧
      cyclicPhase (mixerInitSwashPhase p).1 (mixerInitSwashPhase p).2 SR SP =
        (SP * (mixerInitSwashPhase p).1 + SR * (mixerInitSwashPhase p).2,
         SP * (mixerInitSwashPhase p).2 - SR * (mixerInitSwashPhase p).1)) ∧
    (p = 0 →
      mixerInitSwashPhase p = (0, 1) ∧
      cyclicPhase (mixerInitSwashPhase p).1 (mixerInitSwashPhase p).2 SR SP = (SR, SP)) := by
  constructor
  · intro hp
    have hsc : mixerInitSwashPhase p =
        (Real.sin ((p : ℝ) * Real.pi / 1800), Real.cos ((p : ℝ) * Real.pi / 1800)) := by
      unfold mixerInitSwashPhase
      rw [if_pos hp]
    have hπ : (0 : ℝ) < Real.pi := Real.pi_pos
    have hxlo : -Real.pi < (p : ℝ) * Real.pi / 1800 := by
      have hq : (-1800 : ℝ) * Real.pi < (p : ℝ) * Real.pi := by
        apply mul_lt_mul_of_pos_right _ hπ
        exact_mod_cast hlo
      linarith
    have hxhi : (p : ℝ) * Real.pi / 1800 < Real.pi := by
      have hq : (p : ℝ) * Real.pi < 1800 * Real.pi := by
        apply mul_lt_mul_of_pos_right _ hπ
        exact_mod_cast hhi
      linarith
    have hsin : Real.sin ((p : ℝ) * Real.pi / 1800) ≠ 0 := by
      rw [Ne, Real.sin_eq_zero_iff_of_lt_of_lt hxlo hxhi]
      intro h0
      apply hp
      have hπne : Real.pi ≠ 0 := ne_of_gt hπ
      have hp0 : (p : ℝ) = 0 := by
        rcases mul_eq_zero.mp ((div_eq_zero_iff.mp h0).resolve_right (by norm_num)) with h | h
        · exact h
        · exact absurd h hπne
      exact_mod_cast hp0
    rw [hsc]
    refine ⟨hsin, ?_⟩
    unfold cyclicPhase
    rw [if_pos hsin]
  · intro hp
    subst hp
    have hsc : mixerInitSwashPhase 0 = (0, 1) := by
      unfold mixerInitSwashPhase
      norm_num
    refine ⟨hsc, ?_⟩
    rw [hsc]
    unfold cyclicPhase
    norm_num

/-- Counterexample for C6 as stated: at a configured phase of 1800
decidegrees (180 degrees) the precomputed sine is zero, so the rotation is
not applied — the stored pair for input (roll, pitch) = (1, 0) stays
(1, 0) — although the angle is nonzero and the rotation formula would give
(-1, 0). -/
theorem C6_phase_rotation_counterexample :
    (1800 : ℤ) ≠ 0 ∧
    mixerInitSwashPhase 1800 = (0, -1) ∧
    cyclicPhase (mixerInitSwashPhase 1800).1 (mixerInitSwashPhase 1800).2 1 0 = (1, 0) ∧
    ((0 : ℝ) * (mixerInitSwashPhase 1800).1 + 1 * (mixerInitSwashPhase 1800).2,
     (0 : ℝ) * (mixerInitSwashPhase 1800).2 - 1 * (mixerInitSwashPhase 1800).1) ≠
      ((1 : ℝ), (0 : ℝ)) := by
  have hangle : ((1800 : ℤ) : ℝ) * Real.pi / 1800 = Real.pi := by
    push_cast
    ring
  have hsc : mixerInitSwashPhase 1800 = (0, -1) := by
    unfold mixerInitSwashPhase
    rw [if_pos (by norm_num), hangle, Real.sin_pi, Real.cos_pi]
  refine ⟨by norm_num, hsc, ?_, ?_⟩
  · rw [hsc]
    unfold cyclicPhase
    norm_num
  · rw [hsc]
    intro hcontra
    have h1 : (0 : ℝ) * 0 + 1 * (-1) = 1 := congrArg Prod.fst hcontra
    norm_num at h1

/-- Witness for C6 at phase 900 decidegrees (90 degrees): the rotation is
applied with the code formulas. -/
theorem C6_phase_rotation_gate_witness :
    (mixerInitSwashPhase 900).1 ≠ 0 ∧
    cyclicPhase (mixerInitSwashPhase 900).1 (mixerInitSwashPhase 900).2 1 0 =
      ((0 : ℝ) * (mixerInitSwashPhase 900).1 + 1 * (mixerInitSwashPhase 900).2,
       (0 : ℝ) * (mixerInitSwashPhase 900).2 - 1 * (mixerInitSwashPhase 900).1) := by
  exact (C6_phase_rotation_gate 900 (by norm_num) (by norm_num) 1 0).1 (by norm_num)

end RotorflightMixer

namespace RotorflightMixer

/-- State read by `mixerUpdateMotorizedTail`: the precomputed idle fraction
`tailMotorIdle`, the external spooled-up signal and the current main
throttle input `mixInput[MIXER_IN_STABILIZED_THROTTLE]`. -/
structure TailCtx where
  tailMotorIdle : ℝ
  spooledUp : Bool
  mainThrottle : ℝ

/-- Slow-spoolup gating shared by both motorized tail modes
(mixer.c lines 183-189 and 205-211): while not spooled up, throttle is
forced to 0 below 1% main throttle and scaled by `mainThrottle / 0.20`
below 20%. -/
noncomputable def spoolupGate (c : TailCtx) (throttle : ℝ) : ℝ :=
  if c.spooledUp = false then
    if c.mainThrottle < 0.01 then 0
    else if c.mainThrottle < 0.20 then throttle * (c.mainThrottle / 0.20)
    else throttle
  else
    throttle

/-- Unidirectional motorized tail (mixer.c lines 173-192): thrust
linearization `sqrt(max(yaw, 0))`, clamp up to idle, then spoolup gating;
the result is written back into the yaw slot. -/
noncomputable def mixerTailMotorized (c : TailCtx) (yaw : ℝ) : ℝ :=
  let throttle := Real.sqrt (max yaw 0)
  let throttle := max throttle c.tailMotorIdle
  spoolupGate c throttle

/-- Thrust linearization of the bidirectional tail (mixer.c line 199):
`copysignf(sqrtf(fabsf(yaw)), yaw)` — the square root of the magnitude
carrying the sign of yaw (nonnegative for yaw = 0). -/
noncomputable def bidirRaw (yaw : ℝ) : ℝ :=
  if yaw < 0 then -Real.sqrt |yaw| else Real.sqrt |yaw|

/-- Bidirectional motorized tail (mixer.c lines 194-218): linearization,
idle snapping using the persisted direction, spoolup gating, and the update
of the persisted direction from the final throttle.  Returns
`(throttle, tailMotorDirection)`. -/
noncomputable def mixerTailBidir (c : TailCtx) (dir : ℤ) (yaw : ℝ) : ℝ × ℤ :=
  let throttle := bidirRaw yaw
  let throttle :=
    if throttle > -c.tailMotorIdle ∧ throttle < c.tailMotorIdle then
      (dir : ℝ) * c.tailMotorIdle
    else
      throttle
  let throttle := spoolupGate c throttle
  (throttle, if throttle < 0 then -1 else 1)

/-- C8: the unidirectional tail throttle is `sqrt(max(yaw, 0))` clamped up
to idle; while not spooled up it is forced to 0 below 1% main throttle and
scaled by `mainThrottle/0.20` between 1% and 20%; when spooled up,
yaw = 0.25 gives throttle 0.5 and yaw = -0.1 gives the idle value. -/
theorem C8_tail_unidirectional (c : TailCtx) (yaw : ℝ) :
    (c.spooledUp = true →
      mixerTailMotorized c yaw = max (Real.sqrt (max yaw 0)) c.tailMotorIdle) ∧
    (c.spooledUp = false → c.mainThrottle < 0.01 →
      mixerTailMotorized c yaw = 0) ∧
    (c.spooledUp = false → 0.01 ≤ c.mainThrottle → c.mainThrottle < 0.20 →
      mixerTailMotorized c yaw =
        max (Real.sqrt (max yaw 0)) c.tailMotorIdle * (c.mainThrottle / 0.20)) ∧
    (c.spooledUp = false → 0.20 ≤ c.mainThrottle →
      mixerTailMotorized c yaw = max (Real.sqrt (max yaw 0)) c.tailMotorIdle) ∧
    (c.spooledUp = true → yaw = 0.25 → c.tailMotorIdle ≤ 0.5 →
      mixerTailMotorized c yaw = 0.5) ∧
    (c.spooledUp = true → yaw = -0.1 → 0 ≤ c.tailMotorIdle →
      mixerTailMotorized c yaw = c.tailMotorIdle) := by
  have hsp : ∀ t : ℝ, c.spooledUp = true → spoolupGate c t = t := by
    intro t h
    unfold spoolupGate
    rw [if_neg (by simp [h])]
  refine ⟨?_, ?_, ?_, ?_, ?_, ?_⟩
  · intro h
    unfold mixerTailMotorized
    exact hsp _ h
  · intro h hmt
    unfold mixerTailMotorized spoolupGate
    rw [if_pos (by simp [h]), if_pos hmt]
  · intro h hmt1 hmt2
    unfold mixerTailMotorized spoolupGate
    rw [if_pos (by simp [h]), if_neg (by linarith), if_pos hmt2]
  · intro h hmt
    unfold mixerTailMotorized spoolupGate
    rw [if_pos (by simp [h]), if_neg (by linarith), if_neg (by linarith)]
  · intro h hyaw hidle
    unfold mixerTailMotorized
    rw [hsp _ h, hyaw]
    have h1 : max (0.25 : ℝ) 0 = 0.25 := max_eq_left (by norm_num)
    have h2 : Real.sqrt 0.25 = 0.5 := by
      rw [show (0.25 : ℝ) = 0.5 ^ 2 by norm_num]
      exact Real.sqrt_sq (by norm_num)
    rw [h1, h2]
    exact max_eq_left hidle
  · intro h hyaw hidle
    unfold mixerTailMotorized
    rw [hsp _ h, hyaw]
    have h1 : max (-0.1 : ℝ) 0 = 0 := max_eq_right (by norm_num)
    rw [h1, Real.sqrt_zero]
    exact max_eq_right hidle

/-- Witness for C8: with idle 0.1, spooled up, yaw 0.25 gives 0.5 and
yaw -0.1 gives 0.1. -/
theorem C8_tail_unidirectional_witness :
    let c : TailCtx := { tailMotorIdle := 0.1, spooledUp := true, mainThrottle := 1 }
    mixerTailMotorized c 0.25 = 0.5 ∧ mixerTailMotorized c (-0.1) = c.tailMotorIdle := by
  refine ⟨?_, ?_⟩
  · exact (C8_tail_unidirectional _ 0.25).2.2.2.2.1 rfl rfl (by norm_num)
  · exact (C8_tail_unidirectional _ (-0.1)).2.2.2.2.2 rfl rfl (by norm_num)

end RotorflightMixer

namespace RotorflightMixer

/-- C7 (amended): the bidirectional tail linearization computes
`sign(yaw) * sqrt(|yaw|)`; when its magnitude is strictly below the
configured idle the throttle is snapped to `direction * idle` using the
persisted direction state; the persisted direction is updated every tick to
+1 if the final computed throttle is nonnegative and -1 if it is negative
(so a zero computed throttle resets it to +1); and yaw = 0 with prior
direction +1 and positive idle yields throttle `+idle`, not 0. -/
theorem C7_tail_bidirectional (c : TailCtx) (dir : ℤ) (yaw : ℝ) :
    bidirRaw yaw = Real.sign yaw * Real.sqrt |yaw| ∧
    (c.spooledUp = true → |bidirRaw yaw| < c.tailMotorIdle →
      (mixerTailBidir c dir yaw).1 = (dir : ℝ) * c.tailMotorIdle) ∧
    (c.spooledUp = true → ¬|bidirRaw yaw| < c.tailMotorIdle →
      (mixerTailBidir c dir yaw).1 = bidirRaw yaw) ∧
    ((mixerTailBidir c dir yaw).2 =
      if (mixerTailBidir c dir yaw).1 < 0 then -1 else 1) ∧
    (c.spooledUp = true → dir = 1 → yaw = 0 → 0 < c.tailMotorIdle →
      (mixerTailBidir c dir yaw).1 = c.tailMotorIdle ∧
      (mixerTailBidir c dir yaw).1 ≠ 0) := by
  have hsp : ∀ t : ℝ, c.spooledUp = true → spoolupGate c t = t := by
    intro t h
    unfold spoolupGate
    rw [if_neg (by simp [h])]
  have hraw : bidirRaw yaw = Real.sign yaw * Real.sqrt |yaw| := by
    unfold bidirRaw
    rcases lt_trichotomy yaw 0 with h | h | h
    · rw [if_pos h, Real.sign_of_neg h]
      ring
    · subst h
      rw [if_neg (lt_irrefl 0), Real.sign_zero, abs_zero, Real.sqrt_zero]
      ring
    · rw [if_neg (not_lt_of_gt h), Real.sign_of_pos h]
      ring
  refine ⟨hraw, ?_, ?_, ?_, ?_⟩
  · intro h hlt
    simp only [mixerTailBidir]
    rw [if_pos (abs_lt.mp hlt), hsp _ h]
  · intro h hge
    simp only [mixerTailBidir]
    rw [if_neg (fun hc => hge (abs_lt.mpr hc)), hsp _ h]
  · rfl
  · intro h hdir hyaw hidle
    subst hyaw
    subst hdir
    have h0 : bidirRaw 0 = 0 := by
      unfold bidirRaw
      rw [if_neg (lt_irrefl 0), abs_zero, Real.sqrt_zero]
    have hfinal : (mixerTailBidir c 1 0).1 = c.tailMotorIdle := by
      simp only [mixerTailBidir]
      rw [h0, if_pos ⟨by linarith, hidle⟩, hsp _ h]
      norm_num
    exact ⟨hfinal, hfinal ▸ ne_of_gt hidle⟩

/-- Witness for C7: spooled up, idle 0.1, prior direction +1, yaw 0: the
final throttle is +0.1, not 0. -/
theorem C7_tail_bidirectional_witness :
    let c : TailCtx := { tailMotorIdle := 0.1, spooledUp := true, mainThrottle := 1 }
    (mixerTailBidir c 1 0).1 = c.tailMotorIdle ∧ (mixerTailBidir c 1 0).1 ≠ 0 := by
  exact (C7_tail_bidirectional _ 1 0).2.2.2.2 rfl rfl rfl (by norm_num)

/-- Counterexample for C7 as stated: the claim says the persisted direction
is the sign of the last nonzero computed throttle.  With incoming direction
-1 (the sign of the last nonzero computed throttle), idle 0.1, not spooled
up and main throttle 0, yaw = -1 produces a computed throttle of 0 (forced
by spoolup gating), yet the stored direction becomes +1 instead of staying
-1: the code assigns `(throttle < 0) ? -1 : 1` from the possibly-zero final
throttle. -/
theorem C7_tail_bidirectional_counterexample :
    (mixerTailBidir { tailMotorIdle := 0.1, spooledUp := false, mainThrottle := 0 }
      (-1) (-1)).1 = 0 ∧
    (mixerTailBidir { tailMotorIdle := 0.1, spooledUp := false, mainThrottle := 0 }
      (-1) (-1)).2 = 1 ∧
    ((1 : ℤ) ≠ -1) := by
  have hraw : bidirRaw (-1) = -1 := by
    unfold bidirRaw
    rw [if_pos (by norm_num), abs_neg, abs_one, Real.sqrt_one]
  have hgate : ∀ t : ℝ,
      spoolupGate { tailMotorIdle := 0.1, spooledUp := false, mainThrottle := 0 } t = 0 := by
    intro t
    unfold spoolupGate
    rw [if_pos rfl, if_pos (by norm_num)]
  have hpair : mixerTailBidir { tailMotorIdle := 0.1, spooledUp := false, mainThrottle := 0 }
      (-1) (-1) = (0, 1) := by
    simp only [mixerTailBidir]
    rw [hraw, if_neg (by norm_num), hgate]
    norm_num
  rw [hpair]
  norm_num

end RotorflightMixer
